import Mathlib

/-!
Verification of the Quick, Draw! binary decoder and rasterizer
(`process.py`): the frame decoder `unpack_drawing`, the stream decoder
`unpack_drawings`, the `QuickDrawing` record accessors and memoized
stroke extraction, and the stroke-to-raster renderer.

Bytes are modelled as `Nat` values below 256 where byte identity
matters, and byte streams as `List Nat`.  `file_handle.read k` followed
by `struct.unpack` either yields exactly `k` bytes or raises
`struct.error`; that pair is modelled by `readBytes`, which returns
`none` when fewer than `k` bytes remain.
-/

namespace Process

/-- Read exactly `k` bytes off the front of the stream.  `none` models
`struct.error`: the stream held fewer than `k` bytes. -/
def readBytes : Nat → List Nat → Option (List Nat × List Nat)
  | 0, s => some ([], s)
  | _ + 1, [] => none
  | k + 1, b :: s =>
    match readBytes k s with
    | none => none
    | some (v, r) => some (b :: v, r)

/-- Little-endian value of a byte list (struct formats `Q`, `I`, `H`). -/
def leVal : List Nat → Nat
  | [] => 0
  | b :: bs => b + 256 * leVal bs

/-- Read a `k`-byte little-endian unsigned integer. -/
def readUInt (k : Nat) (s : List Nat) : Option (Nat × List Nat) :=
  match readBytes k s with
  | none => none
  | some (v, r) => some (leVal v, r)

/-- Signed interpretation of one byte (struct format `b`). -/
def toI8 (b : Nat) : Int :=
  if b < 128 then (b : Int) else (b : Int) - 256

/-- The dictionary returned by `unpack_drawing`, as a structure: key id,
raw 2-byte country code, signed recognized flag, timestamp, and the raw
per-stroke coordinate arrays (`image`). -/
structure RawDrawing where
  key_id : Nat
  country_code : List Nat
  recognized : Int
  timestamp : Nat
  image : List (List Nat × List Nat)
deriving DecidableEq, Repr

/-- The stroke-reading loop of `unpack_drawing`: `n` times, read a
2-byte point count `m`, then `m` x-bytes, then `m` y-bytes. -/
def readStrokes : Nat → List Nat → Option (List (List Nat × List Nat) × List Nat)
  | 0, s => some ([], s)
  | n + 1, s =>
    match readUInt 2 s with
    | none => none
    | some (n_points, s1) =>
      match readBytes n_points s1 with
      | none => none
      | some (x, s2) =>
        match readBytes n_points s2 with
        | none => none
        | some (y, s3) =>
          match readStrokes n s3 with
          | none => none
          | some (img, s4) => some ((x, y) :: img, s4)

/-- `unpack_drawing`: decode one frame off the front of the stream,
reading the fixed fields in order (`Q`, `2s`, `b`, `I`, `H`) and then
the declared number of strokes.  Returns the decoded record and the
unconsumed tail; `none` models a `struct.error` on any short read. -/
def unpack_drawing (s : List Nat) : Option (RawDrawing × List Nat) :=
  match readUInt 8 s with
  | none => none
  | some (key_id, s1) =>
    match readBytes 2 s1 with
    | none => none
    | some (country_code, s2) =>
      match readUInt 1 s2 with
      | none => none
      | some (rb, s3) =>
        match readUInt 4 s3 with
        | none => none
        | some (timestamp, s4) =>
          match readUInt 2 s4 with
          | none => none
          | some (n_strokes, s5) =>
            match readStrokes n_strokes s5 with
            | none => none
            | some (image, s6) =>
              some ({ key_id := key_id, country_code := country_code,
                      recognized := toI8 rb, timestamp := timestamp,
                      image := image }, s6)

/-- Bytes occupied by decoded stroke data: per stroke, a 2-byte point
count plus one x-byte and one y-byte per point. -/
def strokesSize (img : List (List Nat × List Nat)) : Nat :=
  (img.map (fun st => 2 + 2 * st.1.length)).sum

/-- What the spec's byte-count formula claims per stroke:
`4 + 2 * point_count` bytes. -/
def claimedStrokesSize (img : List (List Nat × List Nat)) : Nat :=
  (img.map (fun st => 4 + 2 * st.1.length)).sum

/-- One step of `unpack_drawings` with explicit fuel.  The Python loop
`while True: try: yield unpack_drawing(f); except struct.error: break`
runs one `unpack_drawing` per iteration; a successful frame consumes at
least 17 bytes, so `s.length + 1` iterations always suffice (the
fuel-irrelevance lemma `unpack_drawings_fuel_congr` makes this exact). -/
def unpack_drawings_fuel : Nat → List Nat → List RawDrawing
  | 0, _ => []
  | fuel + 1, s =>
    match unpack_drawing s with
    | none => []
    | some (d, rest) => d :: unpack_drawings_fuel fuel rest

/-- `unpack_drawings`: decode frames off the stream until the first
short read (`struct.error`), collecting the complete frames decoded
before it. -/
def unpack_drawings (s : List Nat) : List RawDrawing :=
  unpack_drawings_fuel (s.length + 1) s

/-! ## The drawing dictionary and the `QuickDrawing` accessors -/

/-- A Python value stored in the drawing dictionary. -/
inductive PyVal where
  | num : Nat → PyVal
  | int : Int → PyVal
  | bytes : List Nat → PyVal
  | image : List (List Nat × List Nat) → PyVal
deriving DecidableEq, Repr

/-- Dictionary lookup; `none` models a `KeyError`. -/
def dictGet : List (String × PyVal) → String → Option PyVal
  | [], _ => none
  | (k, v) :: rest, key => if key = k then some v else dictGet rest key

/-- The dictionary literal returned by `unpack_drawing` (its keys are
exactly the ones written in the source). -/
def drawingDict (d : RawDrawing) : List (String × PyVal) :=
  [("key_id", PyVal.num d.key_id),
   ("country_code", PyVal.bytes d.country_code),
   ("recognized", PyVal.int d.recognized),
   ("timestamp", PyVal.num d.timestamp),
   ("image", PyVal.image d.image)]

/-- Is `b` a UTF-8 continuation byte? -/
def utf8Cont (b : Nat) : Bool :=
  decide (128 ≤ b) && decide (b < 192)

/-- Strict UTF-8 decoding of a byte list to code points, as performed
by Python's `bytes.decode("utf-8")`; `none` models a
`UnicodeDecodeError` (invalid leading byte, truncated sequence,
overlong form, or surrogate). -/
def utf8Decode : List Nat → Option (List Nat)
  | [] => some []
  | b :: rest =>
    if b < 128 then (utf8Decode rest).map (fun cs => b :: cs)
    else if b < 194 then none
    else if b < 224 then
      match rest with
      | c1 :: rest1 =>
        if utf8Cont c1 then
          (utf8Decode rest1).map (fun cs => ((b - 192) * 64 + (c1 - 128)) :: cs)
        else none
      | [] => none
    else if b < 240 then
      match rest with
      | c1 :: c2 :: rest2 =>
        if utf8Cont c1 && utf8Cont c2 &&
            (if b = 224 then decide (160 ≤ c1) else true) &&
            (if b = 237 then decide (c1 < 160) else true) then
          (utf8Decode rest2).map
            (fun cs => ((b - 224) * 4096 + (c1 - 128) * 64 + (c2 - 128)) :: cs)
        else none
      | _ => none
    else if b < 245 then
      match rest with
      | c1 :: c2 :: c3 :: rest3 =>
        if utf8Cont c1 && utf8Cont c2 && utf8Cont c3 &&
            (if b = 240 then decide (144 ≤ c1) else true) &&
            (if b = 244 then decide (c1 < 144) else true) then
          (utf8Decode rest3).map
            (fun cs => ((b - 240) * 262144 + (c1 - 128) * 4096 +
              (c2 - 128) * 64 + (c3 - 128)) :: cs)
        else none
      | _ => none
    else none

/-- The `QuickDrawing.countrycode` property: look up the key
`"countrycode"` in the drawing dictionary and UTF-8-decode it.
`none` models an exception (`KeyError` or `UnicodeDecodeError`). -/
def countrycode (dd : List (String × PyVal)) : Option (List Nat) :=
  match dictGet dd "countrycode" with
  | some (PyVal.bytes bs) => utf8Decode bs
  | _ => none

/-- The `QuickDrawing.no_of_strokes` property: look up the key
`"n_strokes"` in the drawing dictionary.  `none` models a `KeyError`. -/
def no_of_strokes (dd : List (String × PyVal)) : Option Nat :=
  match dictGet dd "n_strokes" with
  | some (PyVal.num n) => some n
  | _ => none

/-! ## Stroke extraction (the `strokes` property) -/

/-- The inner point loop of the `strokes` property:
`for point in range(len(xs)): points.append((xs[point], ys[point]))`. -/
def strokePoints (xs ys : List Nat) : List (Nat × Nat) :=
  (List.range xs.length).map (fun i => (xs.getD i 0, ys.getD i 0))

/-- The stroke loop of the `strokes` property run over the raw image
data: returns the list built so far together with a success flag; a
`false` flag models the length-mismatch `Exception`, with the first
component being the partial list appended before it was raised. -/
def extractAll : List (List Nat × List Nat) → List (List (Nat × Nat)) × Bool
  | [] => ([], true)
  | st :: rest =>
    if st.1.length = st.2.length then
      ((strokePoints st.1 st.2 :: (extractAll rest).1), (extractAll rest).2)
    else ([], false)

/-- The mutable state of a `QuickDrawing` object that `strokes` touches:
the raw image data and the `_strokes` memo field. -/
structure QuickDrawingState where
  image_data : List (List Nat × List Nat)
  strokesCache : Option (List (List (Nat × Nat)))
deriving DecidableEq, Repr

/-- One access to the `strokes` property: returns the value produced
(`none` models the raised exception) together with the object state
after the access.  On a miss the `_strokes` field is assigned before the
loop runs and is mutated in place by `append`, so it ends up holding the
partial list even when the loop raises. -/
def strokes (q : QuickDrawingState) :
    Option (List (List (Nat × Nat))) × QuickDrawingState :=
  match q.strokesCache with
  | some l => (some l, q)
  | none =>
    ((if (extractAll q.image_data).2 then some (extractAll q.image_data).1 else none),
     { q with strokesCache := some (extractAll q.image_data).1 })

/-! ## Rasterizer

Modelled from the spec: the source delegates to `PIL.Image.new` and
`ImageDraw.line`, an external raster library whose code is not part of
this repository.  §4.4 of the spec pins down the contract: a fixed
255×255 canvas initialized to the background color; for each stroke, the
connected line segments between consecutive points are drawn with the
stroke color and width (the exact footprint is an implementation choice
but deterministic); strokes with fewer than two points draw nothing;
points outside the canvas are silently clipped, never an error.  The
model below realizes that contract: a pixel is stroke-colored exactly
when its center lies within half the stroke width of some segment
(squared-distance comparison, exact integer arithmetic), and only the
255×255 pixel grid is ever produced, so off-canvas geometry is clipped
by construction. -/

/-- An RGB color. -/
abbrev Color : Type := Nat × Nat × Nat

/-- Does the pixel centered at `c` lie within `w / 2` of the segment
from `p` to `q`?  Exact integer test: all squared distances are scaled
by 4 (and by `dd` for the interior case) to avoid division. -/
def segCovers (w : Nat) (p q c : Int × Int) : Bool :=
  let dx := q.1 - p.1
  let dy := q.2 - p.2
  let vx := c.1 - p.1
  let vy := c.2 - p.2
  let ux := c.1 - q.1
  let uy := c.2 - q.2
  let dd := dx * dx + dy * dy
  let t := vx * dx + vy * dy
  if dd = 0 then decide (4 * (vx * vx + vy * vy) ≤ (w : Int) * w)
  else if t ≤ 0 then decide (4 * (vx * vx + vy * vy) ≤ (w : Int) * w)
  else if dd ≤ t then decide (4 * (ux * ux + uy * uy) ≤ (w : Int) * w)
  else decide (4 * ((vx * vx + vy * vy) * dd - t * t) ≤ (w : Int) * w * dd)

/-- The connected segments of a stroke: consecutive point pairs.  A
stroke with zero or one point has no segments. -/
def strokeSegs (st : List (Nat × Nat)) : List ((Nat × Nat) × (Nat × Nat)) :=
  st.zip st.tail

/-- Is the pixel `(px, py)` covered by some segment of some stroke? -/
def coveredBy (sts : List (List (Nat × Nat))) (w : Nat) (px py : Nat) : Bool :=
  sts.any (fun st => (strokeSegs st).any (fun seg =>
    segCovers w ((seg.1.1 : Int), (seg.1.2 : Int))
      ((seg.2.1 : Int), (seg.2.2 : Int)) ((px : Int), (py : Int))))

/-- Render strokes onto the fixed 255×255 canvas: every pixel is the
background color unless a segment covers it.  Rows are indexed by `py`,
columns by `px`, both ranging over `0..254`. -/
def render (sts : List (List (Nat × Nat))) (stroke_color bg_color : Color)
    (w : Nat) : List (List Color) :=
  (List.range 255).map (fun py => (List.range 255).map (fun px =>
    if coveredBy sts w px py then stroke_color else bg_color))

/-- The all-background 255×255 canvas. -/
def allBackground (bg : Color) : List (List Color) :=
  List.replicate 255 (List.replicate 255 bg)

/-- `QuickDrawing.get_image`: derive the strokes (possibly raising, and
updating the memo field) and rasterize them. -/
def get_image (q : QuickDrawingState) (stroke_color : Color) (w : Nat)
    (bg_color : Color) : Option (List (List Color)) × QuickDrawingState :=
  match strokes q with
  | (none, q1) => (none, q1)
  | (some sts, q1) => (some (render sts stroke_color bg_color w), q1)

/-! ## Concrete frames used by the scenario claims -/

/-- The §8 scenario frame: `key_id = 1`, country code `"US"`,
`recognized = 1`, `timestamp = 0`, one stroke of 3 points
`x = [0, 10, 20]`, `y = [0, 5, 10]`, laid out in the packed
little-endian format. -/
def scenarioBytes : List Nat :=
  [1, 0, 0, 0, 0, 0, 0, 0, 85, 83, 1, 0, 0, 0, 0, 1, 0, 3, 0, 0, 10, 20, 0, 5, 10]

/-- The record the scenario frame decodes to. -/
def scenarioRec : RawDrawing :=
  { key_id := 1, country_code := [85, 83], recognized := 1, timestamp := 0,
    image := [([0, 10, 20], [0, 5, 10])] }

/-- A well-formed frame declaring zero strokes (17 bytes). -/
def zeroStrokesBytes : List Nat :=
  [7, 0, 0, 0, 0, 0, 0, 0, 85, 83, 0, 0, 0, 0, 0, 0, 0]

/-- The record the zero-stroke frame decodes to. -/
def zeroStrokesRec : RawDrawing :=
  { key_id := 7, country_code := [85, 83], recognized := 0, timestamp := 0,
    image := [] }

/-- A well-formed frame with one stroke of zero points (19 bytes). -/
def emptyStrokeBytes : List Nat :=
  [7, 0, 0, 0, 0, 0, 0, 0, 85, 83, 1, 0, 0, 0, 0, 1, 0, 0, 0]

/-- The record the empty-stroke frame decodes to. -/
def emptyStrokeRec : RawDrawing :=
  { key_id := 7, country_code := [85, 83], recognized := 1, timestamp := 0,
    image := [([], [])] }

/-- A well-formed frame with two strokes of zero points each
(21 bytes: 17 fixed bytes plus two 2-byte point counts). -/
def twoStrokesBytes : List Nat :=
  [7, 0, 0, 0, 0, 0, 0, 0, 85, 83, 1, 0, 0, 0, 0, 2, 0, 0, 0, 0, 0]

/-- The record the two-stroke frame decodes to. -/
def twoStrokesRec : RawDrawing :=
  { key_id := 7, country_code := [85, 83], recognized := 1, timestamp := 0,
    image := [([], []), ([], [])] }

/-! ## Basic read lemmas -/

/-- `readBytes` characterized by `take`/`drop`: it succeeds exactly when
`k` bytes remain, consuming them in order. -/
theorem readBytes_eq (k : Nat) (s : List Nat) :
    readBytes k s = if k ≤ s.length then some (s.take k, s.drop k) else none := by
  induction k generalizing s with
  | zero => simp [readBytes]
  | succ k ih =>
    cases s with
    | nil => simp [readBytes]
    | cons b t =>
      by_cases h : k ≤ t.length
      · simp [readBytes, ih t, h, Nat.succ_le_succ_iff]
      · simp [readBytes, ih t, h, Nat.succ_le_succ_iff]

theorem readBytes_some (k : Nat) (s v r : List Nat)
    (h : readBytes k s = some (v, r)) :
    k ≤ s.length ∧ v = s.take k ∧ r = s.drop k := by
  rw [readBytes_eq] at h
  by_cases hk : k ≤ s.length
  · simp [hk] at h
    exact ⟨hk, h.1.symm, h.2.symm⟩
  · simp [hk] at h

theorem readBytes_length_some (k : Nat) (s v r : List Nat)
    (h : readBytes k s = some (v, r)) : v.length = k := by
  obtain ⟨hk, hv, _⟩ := readBytes_some k s v r h
  simp [hv, List.length_take, Nat.min_eq_left hk]

theorem readBytes_none (k : Nat) (s : List Nat) (h : s.length < k) :
    readBytes k s = none := by
  rw [readBytes_eq, if_neg (by omega)]

theorem readUInt_some (k : Nat) (s : List Nat) (v : Nat) (r : List Nat)
    (h : readUInt k s = some (v, r)) :
    k ≤ s.length ∧ v = leVal (s.take k) ∧ r = s.drop k := by
  unfold readUInt at h
  cases hb : readBytes k s with
  | none => rw [hb] at h; exact absurd h (by simp)
  | some vr =>
    rw [hb] at h
    obtain ⟨hk, hv, hr⟩ := readBytes_some k s vr.1 vr.2 hb
    simp at h
    exact ⟨hk, by rw [← h.1, hv], by rw [← h.2, hr]⟩

/-- Reading succeeds unchanged on an extended stream: parsing is
prefix-deterministic. -/
theorem readBytes_append (k : Nat) (s v r g : List Nat)
    (h : readBytes k s = some (v, r)) :
    readBytes k (s ++ g) = some (v, r ++ g) := by
  induction k generalizing s v r with
  | zero =>
    simp [readBytes] at h
    simp [readBytes, h]
  | succ k ih =>
    cases s with
    | nil => exact absurd h (by simp [readBytes])
    | cons b t =>
      rw [List.cons_append]
      unfold readBytes at h ⊢
      cases ht : readBytes k t with
      | none => rw [ht] at h; exact absurd h (by simp)
      | some vr =>
        rw [ht] at h
        simp at h
        rw [ih t vr.1 vr.2 ht]
        simp [← h.1, ← h.2]

theorem readUInt_append (k : Nat) (s : List Nat) (v : Nat) (r g : List Nat)
    (h : readUInt k s = some (v, r)) :
    readUInt k (s ++ g) = some (v, r ++ g) := by
  unfold readUInt at h ⊢
  cases hb : readBytes k s with
  | none => rw [hb] at h; exact absurd h (by simp)
  | some vr =>
    rw [hb] at h
    rw [readBytes_append k s vr.1 vr.2 g hb]
    simpa using h

/-! ## Stroke-loop lemmas -/

theorem readStrokes_spec (n : Nat) (s : List Nat)
    (img : List (List Nat × List Nat)) (r : List Nat)
    (h : readStrokes n s = some (img, r)) :
    img.length = n ∧ (∀ st ∈ img, st.1.length = st.2.length) ∧
      strokesSize img ≤ s.length ∧ r = s.drop (strokesSize img) := by
  induction n generalizing s img r with
  | zero =>
    simp [readStrokes] at h
    obtain ⟨h1, h2⟩ := h
    subst h1
    subst h2
    simp [strokesSize]
  | succ n ih =>
    unfold readStrokes at h
    cases h2 : readUInt 2 s with
    | none => rw [h2] at h; exact absurd h (by simp)
    | some mr =>
      obtain ⟨m, s1⟩ := mr
      rw [h2] at h
      dsimp only at h
      obtain ⟨hs2, hm, hr2⟩ := readUInt_some 2 s m s1 h2
      cases hx : readBytes m s1 with
      | none => rw [hx] at h; exact absurd h (by simp)
      | some xr =>
        obtain ⟨x, s2⟩ := xr
        rw [hx] at h
        dsimp only at h
        obtain ⟨hsx, hxv, hrx⟩ := readBytes_some m s1 x s2 hx
        cases hy : readBytes m s2 with
        | none => rw [hy] at h; exact absurd h (by simp)
        | some yr =>
          obtain ⟨y, s3⟩ := yr
          rw [hy] at h
          dsimp only at h
          obtain ⟨hsy, hyv, hry⟩ := readBytes_some m s2 y s3 hy
          cases hrest : readStrokes n s3 with
          | none => rw [hrest] at h; exact absurd h (by simp)
          | some ir =>
            obtain ⟨img0, s4⟩ := ir
            rw [hrest] at h
            dsimp only at h
            simp at h
            obtain ⟨hlen, hall, hsz, hr⟩ := ih s3 img0 s4 hrest
            have hxlen : x.length = m := readBytes_length_some m s1 x s2 hx
            have hylen : y.length = m := readBytes_length_some m s2 y s3 hy
            have himg : img = (x, y) :: img0 := h.1.symm
            have hsz1 : strokesSize img = 2 + 2 * m + strokesSize img0 := by
              simp [himg, strokesSize, hxlen]
            have hdrops : s3 = s.drop (2 + 2 * m) := by
              rw [hry, hrx, hr2, List.drop_drop, List.drop_drop]
              congr 1
              omega
            have hslen : 2 + 2 * m ≤ s.length := by
              rw [hrx, hr2] at hsy
              rw [List.length_drop, List.length_drop] at hsy
              omega
            refine ⟨by simp [himg, hlen], ?_, ?_, ?_⟩
            · intro st hst
              rw [himg] at hst
              rcases List.mem_cons.mp hst with h1 | h1
              · rw [h1]
                simp [hxlen, hylen]
              · exact hall st h1
            · have hs3 : strokesSize img0 ≤ s3.length := hsz
              rw [hdrops, List.length_drop] at hs3
              omega
            · rw [← h.2, hr, hdrops, List.drop_drop, hsz1]

theorem readStrokes_append (n : Nat) (s : List Nat)
    (img : List (List Nat × List Nat)) (r g : List Nat)
    (h : readStrokes n s = some (img, r)) :
    readStrokes n (s ++ g) = some (img, r ++ g) := by
  induction n generalizing s img r with
  | zero =>
    simp [readStrokes] at h
    simp [readStrokes, h]
  | succ n ih =>
    unfold readStrokes at h ⊢
    cases h2 : readUInt 2 s with
    | none => rw [h2] at h; exact absurd h (by simp)
    | some mr =>
      obtain ⟨m, s1⟩ := mr
      rw [h2] at h
      dsimp only at h
      rw [readUInt_append 2 s m s1 g h2]
      dsimp only
      cases hx : readBytes m s1 with
      | none => rw [hx] at h; exact absurd h (by simp)
      | some xr =>
        obtain ⟨x, s2⟩ := xr
        rw [hx] at h
        dsimp only at h
        rw [readBytes_append m s1 x s2 g hx]
        dsimp only
        cases hy : readBytes m s2 with
        | none => rw [hy] at h; exact absurd h (by simp)
        | some yr =>
          obtain ⟨y, s3⟩ := yr
          rw [hy] at h
          dsimp only at h
          rw [readBytes_append m s2 y s3 g hy]
          dsimp only
          cases hrest : readStrokes n s3 with
          | none => rw [hrest] at h; exact absurd h (by simp)
          | some ir =>
            obtain ⟨img0, s4⟩ := ir
            rw [hrest] at h
            dsimp only at h
            rw [ih s3 img0 s4 hrest]
            dsimp only
            simpa using h

/-! ## Frame-level lemmas -/

/-- Inversion of a successful `unpack_drawing`: the fixed fields are the
designated spans of the input, read strictly in order, and the stroke
loop starts at offset 17 with the declared stroke count. -/
theorem unpack_drawing_inv (s : List Nat) (d : RawDrawing) (rest : List Nat)
    (h : unpack_drawing s = some (d, rest)) :
    17 ≤ s.length ∧
    d.key_id = leVal (s.take 8) ∧
    d.country_code = (s.drop 8).take 2 ∧
    d.recognized = toI8 (leVal ((s.drop 10).take 1)) ∧
    d.timestamp = leVal ((s.drop 11).take 4) ∧
    readStrokes (leVal ((s.drop 15).take 2)) (s.drop 17) = some (d.image, rest) := by
  unfold unpack_drawing at h
  cases h8 : readUInt 8 s with
  | none => rw [h8] at h; exact absurd h (by simp)
  | some kr =>
    obtain ⟨kid, s1⟩ := kr
    rw [h8] at h
    dsimp only at h
    obtain ⟨hl8, hk, hs1⟩ := readUInt_some 8 s kid s1 h8
    cases hc : readBytes 2 s1 with
    | none => rw [hc] at h; exact absurd h (by simp)
    | some cr =>
      obtain ⟨cc, s2⟩ := cr
      rw [hc] at h
      dsimp only at h
      obtain ⟨hl2, hcv, hs2⟩ := readBytes_some 2 s1 cc s2 hc
      cases hr1 : readUInt 1 s2 with
      | none => rw [hr1] at h; exact absurd h (by simp)
      | some rr =>
        obtain ⟨rb, s3⟩ := rr
        rw [hr1] at h
        dsimp only at h
        obtain ⟨hl1, hrv, hs3⟩ := readUInt_some 1 s2 rb s3 hr1
        cases ht4 : readUInt 4 s3 with
        | none => rw [ht4] at h; exact absurd h (by simp)
        | some tr =>
          obtain ⟨ts, s4⟩ := tr
          rw [ht4] at h
          dsimp only at h
          obtain ⟨hl4, htv, hs4⟩ := readUInt_some 4 s3 ts s4 ht4
          cases hn2 : readUInt 2 s4 with
          | none => rw [hn2] at h; exact absurd h (by simp)
          | some nr =>
            obtain ⟨ns, s5⟩ := nr
            rw [hn2] at h
            dsimp only at h
            obtain ⟨hl52, hnv, hs5⟩ := readUInt_some 2 s4 ns s5 hn2
            cases hst : readStrokes ns s5 with
            | none => rw [hst] at h; exact absurd h (by simp)
            | some ir =>
              obtain ⟨image, s6⟩ := ir
              rw [hst] at h
              dsimp only at h
              simp at h
              obtain ⟨hd, hrest⟩ := h
              have e2 : s2 = s.drop 10 := by
                rw [hs2, hs1]
                norm_num [List.drop_drop]
              have e3 : s3 = s.drop 11 := by
                rw [hs3, e2]
                norm_num [List.drop_drop]
              have e4 : s4 = s.drop 15 := by
                rw [hs4, e3]
                norm_num [List.drop_drop]
              have e5 : s5 = s.drop 17 := by
                rw [hs5, e4]
                norm_num [List.drop_drop]
              have hlen17 : 17 ≤ s.length := by
                rw [e4, List.length_drop] at hl52
                omega
              refine ⟨hlen17, ?_, ?_, ?_, ?_, ?_⟩
              · rw [← hd, hk]
              · rw [← hd, hcv, hs1]
              · rw [← hd]
                dsimp only
                rw [hrv, e2]
              · rw [← hd, htv, e3]
              · rw [← hd]
                dsimp only
                rw [← hrest, ← e5, ← e4, ← hnv, hst]

/-- A successful frame decode consumes exactly 17 fixed bytes plus the
stroke data, and the unconsumed tail is the corresponding suffix of the
input: the cursor moves strictly forward, skipping and re-reading
nothing. -/
theorem unpack_drawing_consumed (s : List Nat) (d : RawDrawing) (rest : List Nat)
    (h : unpack_drawing s = some (d, rest)) :
    17 + strokesSize d.image ≤ s.length ∧
      rest = s.drop (17 + strokesSize d.image) := by
  obtain ⟨hlen, -, -, -, -, hst⟩ := unpack_drawing_inv s d rest h
  obtain ⟨-, -, hsz, hr⟩ :=
    readStrokes_spec (leVal ((s.drop 15).take 2)) (s.drop 17) d.image rest hst
  rw [List.length_drop] at hsz
  constructor
  · omega
  · rw [hr, List.drop_drop]

theorem unpack_drawing_progress (s : List Nat) (d : RawDrawing) (rest : List Nat)
    (h : unpack_drawing s = some (d, rest)) : rest.length < s.length := by
  obtain ⟨hle, hr⟩ := unpack_drawing_consumed s d rest h
  rw [hr, List.length_drop]
  omega

/-- Any frame needs at least 8 bytes for its first field. -/
theorem unpack_drawing_short (s : List Nat) (h : s.length < 8) :
    unpack_drawing s = none := by
  unfold unpack_drawing readUInt
  rw [readBytes_none 8 s h]

/-- A successful frame decode is unchanged when the stream is extended:
parsing is prefix-deterministic. -/
theorem unpack_drawing_append (s : List Nat) (d : RawDrawing) (rest g : List Nat)
    (h : unpack_drawing s = some (d, rest)) :
    unpack_drawing (s ++ g) = some (d, rest ++ g) := by
  unfold unpack_drawing at h ⊢
  cases h8 : readUInt 8 s with
  | none => rw [h8] at h; exact absurd h (by simp)
  | some kr =>
    obtain ⟨kid, s1⟩ := kr
    rw [h8] at h
    dsimp only at h
    rw [readUInt_append 8 s kid s1 g h8]
    dsimp only
    cases hc : readBytes 2 s1 with
    | none => rw [hc] at h; exact absurd h (by simp)
    | some cr =>
      obtain ⟨cc, s2⟩ := cr
      rw [hc] at h
      dsimp only at h
      rw [readBytes_append 2 s1 cc s2 g hc]
      dsimp only
      cases hr1 : readUInt 1 s2 with
      | none => rw [hr1] at h; exact absurd h (by simp)
      | some rr =>
        obtain ⟨rb, s3⟩ := rr
        rw [hr1] at h
        dsimp only at h
        rw [readUInt_append 1 s2 rb s3 g hr1]
        dsimp only
        cases ht4 : readUInt 4 s3 with
        | none => rw [ht4] at h; exact absurd h (by simp)
        | some tr =>
          obtain ⟨ts, s4⟩ := tr
          rw [ht4] at h
          dsimp only at h
          rw [readUInt_append 4 s3 ts s4 g ht4]
          dsimp only
          cases hn2 : readUInt 2 s4 with
          | none => rw [hn2] at h; exact absurd h (by simp)
          | some nr =>
            obtain ⟨ns, s5⟩ := nr
            rw [hn2] at h
            dsimp only at h
            rw [readUInt_append 2 s4 ns s5 g hn2]
            dsimp only
            cases hst : readStrokes ns s5 with
            | none => rw [hst] at h; exact absurd h (by simp)
            | some ir =>
              obtain ⟨image, s6⟩ := ir
              rw [hst] at h
              dsimp only at h
              rw [readStrokes_append ns s5 image s6 g hst]
              dsimp only
              simpa using h

/-! ## Stream-level lemmas -/

/-- The fuel argument is irrelevant once it exceeds the stream length. -/
theorem unpack_drawings_fuel_congr (f1 : Nat) :
    ∀ (f2 : Nat) (s : List Nat), s.length < f1 → s.length < f2 →
      unpack_drawings_fuel f1 s = unpack_drawings_fuel f2 s := by
  induction f1 with
  | zero => intro f2 s h1 h2; omega
  | succ f1 ih =>
    intro f2 s h1 h2
    cases f2 with
    | zero => omega
    | succ f2 =>
      unfold unpack_drawings_fuel
      cases hu : unpack_drawing s with
      | none => rfl
      | some dr =>
        obtain ⟨d, rest⟩ := dr
        dsimp only
        have hp := unpack_drawing_progress s d rest hu
        rw [ih f2 rest (by omega) (by omega)]

theorem unpack_drawings_eq_nil (s : List Nat) (h : unpack_drawing s = none) :
    unpack_drawings s = [] := by
  unfold unpack_drawings unpack_drawings_fuel
  rw [h]

theorem unpack_drawings_eq_cons (s : List Nat) (d : RawDrawing) (rest : List Nat)
    (h : unpack_drawing s = some (d, rest)) :
    unpack_drawings s = d :: unpack_drawings rest := by
  unfold unpack_drawings
  have hp := unpack_drawing_progress s d rest h
  conv_lhs => rw [unpack_drawings_fuel, h]
  dsimp only
  rw [unpack_drawings_fuel_congr s.length (rest.length + 1) rest (by omega) (by omega)]

/-! ## Stroke-extraction lemmas -/

theorem strokePoints_nil (ys : List Nat) : strokePoints [] ys = [] := by
  simp [strokePoints]

theorem strokePoints_cons (x : Nat) (xs : List Nat) (y : Nat) (ys : List Nat) :
    strokePoints (x :: xs) (y :: ys) = (x, y) :: strokePoints xs ys := by
  unfold strokePoints
  rw [List.length_cons, List.range_succ_eq_map, List.map_cons, List.map_map]
  simp [Function.comp_def]

theorem strokePoints_eq_zip (xs : List Nat) :
    ∀ ys : List Nat, xs.length = ys.length → strokePoints xs ys = xs.zip ys := by
  induction xs with
  | nil => intro ys h; simp [strokePoints]
  | cons x xs ih =>
    intro ys h
    cases ys with
    | nil => simp at h
    | cons y ys =>
      rw [strokePoints_cons, List.zip_cons_cons, ih ys (by simpa using h)]

/-- When every stroke has matching x/y lengths, the extraction loop
succeeds and produces each stroke's point pairs in order. -/
theorem extractAll_ok (img : List (List Nat × List Nat))
    (h : ∀ st ∈ img, st.1.length = st.2.length) :
    extractAll img = (img.map (fun st => st.1.zip st.2), true) := by
  induction img with
  | nil => rfl
  | cons st rest ih =>
    have hst : st.1.length = st.2.length := h st (List.mem_cons_self st rest)
    have hrest := ih (fun st' h' => h st' (List.mem_cons_of_mem st h'))
    unfold extractAll
    rw [if_pos hst, hrest, strokePoints_eq_zip st.1 st.2 hst, List.map_cons]

/-- When stroke `i` is the first with mismatched lengths, the loop
raises there, having appended exactly the strokes before it. -/
theorem extractAll_mismatch (pre : List (List Nat × List Nat))
    (bad : List Nat × List Nat) (post : List (List Nat × List Nat))
    (hpre : ∀ st ∈ pre, st.1.length = st.2.length)
    (hbad : bad.1.length ≠ bad.2.length) :
    extractAll (pre ++ bad :: post) =
      (pre.map (fun st => st.1.zip st.2), false) := by
  induction pre with
  | nil =>
    rw [List.nil_append]
    unfold extractAll
    rw [if_neg hbad]
    rfl
  | cons st pre ih =>
    have hst : st.1.length = st.2.length := hpre st (List.mem_cons_self st pre)
    have hrest := ih (fun st' h' => hpre st' (List.mem_cons_of_mem st h'))
    rw [List.cons_append]
    unfold extractAll
    rw [if_pos hst, hrest, strokePoints_eq_zip st.1 st.2 hst, List.map_cons]

/-! ## Rasterizer lemmas -/

theorem strokeSegs_short (st : List (Nat × Nat)) (h : st.length ≤ 1) :
    strokeSegs st = [] := by
  cases st with
  | nil => rfl
  | cons p rest =>
    cases rest with
    | nil => rfl
    | cons q rest2 => simp at h

theorem coveredBy_short (sts : List (List (Nat × Nat)))
    (h : ∀ st ∈ sts, st.length ≤ 1) (w px py : Nat) :
    coveredBy sts w px py = false := by
  unfold coveredBy
  rw [List.any_eq_false]
  intro st hst
  rw [strokeSegs_short st (h st hst)]
  simp

/-- Strokes with at most one point each draw nothing: the canvas is
all background. -/
theorem render_background (sts : List (List (Nat × Nat)))
    (h : ∀ st ∈ sts, st.length ≤ 1) (c bg : Color) (w : Nat) :
    render sts c bg w = allBackground bg := by
  unfold render allBackground
  have hcov : ∀ px py : Nat, coveredBy sts w px py = false :=
    fun px py => coveredBy_short sts h w px py
  have hrow : (fun py => (List.range 255).map
      (fun px => if coveredBy sts w px py then c else bg)) =
      fun _ : Nat => List.replicate 255 bg := by
    funext py
    have hpix : (fun px => if coveredBy sts w px py then c else bg) =
        fun _ : Nat => bg := by
      funext px
      rw [hcov px py]
      simp
    rw [hpix, List.map_const', List.length_range]
  rw [hrow, List.map_const', List.length_range]

/-! ## Claims -/

/-- Claim C1, counterexample.  The claim prices each stroke at
`4 + 2 * point_count` bytes on top of the frame's fixed header.  The
21-byte frame with two zero-point strokes is decoded consuming all 21
bytes (the unconsumed tail is empty), yet the claimed formula gives
`17 + 8 = 25` — and even charging only the 15 pre-count bytes as
header gives 23 — so the claim's byte count is wrong as stated. -/
theorem claim1_counterexample :
    unpack_drawing twoStrokesBytes = some (twoStrokesRec, []) ∧
    twoStrokesBytes.length = 21 ∧
    claimedStrokesSize twoStrokesRec.image = 8 ∧
    twoStrokesBytes.length ≠ 17 + claimedStrokesSize twoStrokesRec.image ∧
    twoStrokesBytes.length ≠ 15 + claimedStrokesSize twoStrokesRec.image := by
  refine ⟨by rfl, by rfl, by rfl, by decide, by decide⟩

/-- Claim C1, amended.  Decoding a frame consumes exactly the 17 fixed
header bytes plus, per stroke, `2 + 2 * point_count` bytes (a 2-byte
point count, then `point_count` x-bytes and `point_count` y-bytes); the
unconsumed tail is exactly the corresponding suffix of the input, so
the single cursor advances strictly in field order with no byte
skipped or read twice. -/
theorem claim1_frame_consumption (s : List Nat) (d : RawDrawing) (rest : List Nat)
    (h : unpack_drawing s = some (d, rest)) :
    17 + strokesSize d.image ≤ s.length ∧
      rest = s.drop (17 + strokesSize d.image) :=
  unpack_drawing_consumed s d rest h

/-- Witness for `claim1_frame_consumption` at the §8 scenario frame. -/
theorem claim1_frame_consumption_witness :
    17 + strokesSize scenarioRec.image ≤ scenarioBytes.length ∧
      ([] : List Nat) = scenarioBytes.drop (17 + strokesSize scenarioRec.image) :=
  claim1_frame_consumption scenarioBytes scenarioRec [] (by rfl)

/-- Claim C2.  For every record the decoder produces, the
`countrycode` accessor raises (`none`): the decoder stores the raw
bytes under the key `"country_code"`, but the accessor looks up
`"countrycode"`, which is absent from the dictionary, so the access is
a `KeyError` before any text decoding happens — it never returns the
country code, contradicting the claim. -/
theorem claim2_countrycode_raises (d : RawDrawing) :
    countrycode (drawingDict d) = none := by
  rfl

/-- `claim2_countrycode_raises` evaluated at the §8 scenario record. -/
theorem claim2_countrycode_raises_witness :
    countrycode (drawingDict scenarioRec) = none :=
  claim2_countrycode_raises scenarioRec

/-- Claim C3.  For every record the decoder produces, the
`no_of_strokes` accessor raises (`none`): it looks up the key
`"n_strokes"`, but `unpack_drawing` never stores the decoded stroke
count in the returned dictionary at all, so the access is a `KeyError`
— it never returns the stroke count, contradicting the claim. -/
theorem claim3_no_of_strokes_raises (d : RawDrawing) :
    no_of_strokes (drawingDict d) = none := by
  rfl

/-- `claim3_no_of_strokes_raises` evaluated at the §8 scenario record. -/
theorem claim3_no_of_strokes_raises_witness :
    no_of_strokes (drawingDict scenarioRec) = none :=
  claim3_no_of_strokes_raises scenarioRec

/-- Claim C4.  Every decoded record has as many strokes as the 2-byte
stroke count at offset 15 of its frame declares; every stroke has as
many x-values as y-values (each equal to its declared point count, the
byte budget of `claim1_frame_consumption` being `2 + 2 * point_count`);
and extraction succeeds, producing for each stroke exactly its point
pairs in original order, one per x-value. -/
theorem claim4_decoded_counts (s : List Nat) (d : RawDrawing) (rest : List Nat)
    (h : unpack_drawing s = some (d, rest)) :
    d.image.length = leVal ((s.drop 15).take 2) ∧
    (∀ st ∈ d.image, st.1.length = st.2.length) ∧
    extractAll d.image = (d.image.map (fun st => st.1.zip st.2), true) ∧
    (∀ st ∈ d.image, (st.1.zip st.2).length = st.1.length) := by
  obtain ⟨-, -, -, -, -, hst⟩ := unpack_drawing_inv s d rest h
  obtain ⟨hlen, hall, -, -⟩ :=
    readStrokes_spec (leVal ((s.drop 15).take 2)) (s.drop 17) d.image rest hst
  refine ⟨hlen, hall, extractAll_ok d.image hall, ?_⟩
  intro st hmem
  rw [List.length_zip, hall st hmem, Nat.min_self]

/-- Witness for `claim4_decoded_counts` at the §8 scenario frame. -/
theorem claim4_decoded_counts_witness :
    scenarioRec.image.length = leVal ((scenarioBytes.drop 15).take 2) ∧
    (∀ st ∈ scenarioRec.image, st.1.length = st.2.length) ∧
    extractAll scenarioRec.image =
      (scenarioRec.image.map (fun st => st.1.zip st.2), true) ∧
    (∀ st ∈ scenarioRec.image, (st.1.zip st.2).length = st.1.length) :=
  claim4_decoded_counts scenarioBytes scenarioRec [] (by rfl)

/-- Claim C5.  The stream decoder never errors on exhausted input: the
empty stream yields no records; any stream shorter than the first
8-byte field already fails the frame decoder (and hence ends the
stream); and a well-formed frame followed by any bytes on which the
frame decoder hits a short read — 1 to 7 trailing garbage bytes,
or any truncation mid-frame — yields exactly the complete frame and
then terminates normally; likewise two complete frames followed by a
short read yield exactly those two frames. -/
theorem claim5_lenient_stream :
    unpack_drawings [] = [] ∧
    (∀ g : List Nat, g.length < 8 → unpack_drawing g = none) ∧
    (∀ g : List Nat, unpack_drawing g = none →
      unpack_drawings (scenarioBytes ++ g) = [scenarioRec]) ∧
    (∀ g : List Nat, unpack_drawing g = none →
      unpack_drawings (scenarioBytes ++ zeroStrokesBytes ++ g) =
        [scenarioRec, zeroStrokesRec]) := by
  refine ⟨unpack_drawings_eq_nil [] (by rfl), unpack_drawing_short, ?_, ?_⟩
  · intro g hg
    have happ := unpack_drawing_append scenarioBytes scenarioRec [] g (by rfl)
    rw [List.nil_append] at happ
    rw [unpack_drawings_eq_cons (scenarioBytes ++ g) scenarioRec g happ,
      unpack_drawings_eq_nil g hg]
  · intro g hg
    have happ0 :=
      unpack_drawing_append zeroStrokesBytes zeroStrokesRec [] g (by rfl)
    rw [List.nil_append] at happ0
    have happ1 := unpack_drawing_append scenarioBytes scenarioRec []
      (zeroStrokesBytes ++ g) (by rfl)
    rw [List.nil_append] at happ1
    rw [List.append_assoc,
      unpack_drawings_eq_cons (scenarioBytes ++ (zeroStrokesBytes ++ g))
        scenarioRec (zeroStrokesBytes ++ g) happ1,
      unpack_drawings_eq_cons (zeroStrokesBytes ++ g) zeroStrokesRec g happ0,
      unpack_drawings_eq_nil g hg]

/-- Witness for `claim5_lenient_stream`: the scenario frame followed by
three garbage bytes decodes to exactly that frame. -/
theorem claim5_lenient_stream_witness :
    unpack_drawings (scenarioBytes ++ [1, 2, 3]) = [scenarioRec] :=
  claim5_lenient_stream.2.2.1 [1, 2, 3]
    (claim5_lenient_stream.2.1 [1, 2, 3] (by norm_num))

/-- Claim C6.  The concrete §8 scenario frame (`key_id = 1`,
`country_code = "US"`, `recognized = 1`, `timestamp = 0`, one stroke of
3 points `x = [0, 10, 20]`, `y = [0, 5, 10]`) decodes, consuming the
whole frame, to a record whose single stroke extracts to
`[(0, 0), (10, 5), (20, 10)]`. -/
theorem claim6_scenario :
    unpack_drawing scenarioBytes = some (scenarioRec, []) ∧
    scenarioRec.key_id = 1 ∧ scenarioRec.country_code = [85, 83] ∧
    scenarioRec.recognized = 1 ∧ scenarioRec.timestamp = 0 ∧
    strokes { image_data := scenarioRec.image, strokesCache := none } =
      (some [[(0, 0), (10, 5), (20, 10)]],
       { image_data := scenarioRec.image,
         strokesCache := some [[(0, 0), (10, 5), (20, 10)]] }) := by
  refine ⟨by rfl, by rfl, by rfl, by rfl, by rfl, by rfl⟩

/-- Claim C7.  Rendering is total in the stroke data — any list of
strokes, including points at coordinate 255 or beyond the 255×255
canvas, produces a pixel buffer of exactly 255 rows of 255 pixels;
off-canvas geometry is clipped because only the canvas grid is ever
produced. -/
theorem claim7_render_dims (sts : List (List (Nat × Nat))) (c bg : Color)
    (w : Nat) :
    (render sts c bg w).length = 255 ∧
      (render sts c bg w).map List.length = List.replicate 255 255 := by
  constructor
  · simp [render]
  · unfold render
    rw [List.map_map]
    have : (List.length ∘ fun py => (List.range 255).map
        (fun px => if coveredBy sts w px py then c else bg)) =
        fun _ : Nat => 255 := by
      funext py
      simp
    rw [this, List.map_const', List.length_range]

/-- `claim7_render_dims` evaluated at a stroke reaching coordinate 255
(outside pixel indices `0..254`) and far beyond the canvas: rendering
still yields the 255×255 buffer. -/
theorem claim7_render_dims_witness :
    (render [[(255, 255), (300, 17)]] (0, 0, 0) (255, 255, 255) 2).length = 255 ∧
      (render [[(255, 255), (300, 17)]] (0, 0, 0) (255, 255, 255) 2).map
          List.length = List.replicate 255 255 :=
  claim7_render_dims [[(255, 255), (300, 17)]] (0, 0, 0) (255, 255, 255) 2

/-- Claim C8.  A list of strokes each holding zero or one point renders
to the all-background canvas: no pixel is changed, and nothing fails. -/
theorem claim8_short_strokes_blank (sts : List (List (Nat × Nat)))
    (c bg : Color) (w : Nat) (h : ∀ st ∈ sts, st.length ≤ 1) :
    render sts c bg w = allBackground bg :=
  render_background sts h c bg w

/-- Witness for `claim8_short_strokes_blank`: one single-point stroke
and one empty stroke render to the blank canvas. -/
theorem claim8_short_strokes_blank_witness :
    render [[(5, 5)], []] (0, 0, 0) (255, 255, 255) 2 =
      allBackground (255, 255, 255) :=
  claim8_short_strokes_blank [[(5, 5)], []] (0, 0, 0) (255, 255, 255) 2
    (by decide)

/-- Claim C9.  Stroke extraction is not atomic on failure: on a record
whose first mismatched stroke follows `pre` well-formed strokes, the
first `strokes` access raises (`none`) but leaves the memo field set to
the partial list of the `pre` extracted strokes, and a subsequent
access returns that partial list without raising. -/
theorem claim9_partial_cache (pre : List (List Nat × List Nat))
    (bad : List Nat × List Nat) (post : List (List Nat × List Nat))
    (hpre : ∀ st ∈ pre, st.1.length = st.2.length)
    (hbad : bad.1.length ≠ bad.2.length) :
    strokes { image_data := pre ++ bad :: post, strokesCache := none } =
      (none, { image_data := pre ++ bad :: post,
               strokesCache := some (pre.map (fun st => st.1.zip st.2)) }) ∧
    strokes { image_data := pre ++ bad :: post,
              strokesCache := some (pre.map (fun st => st.1.zip st.2)) } =
      (some (pre.map (fun st => st.1.zip st.2)),
       { image_data := pre ++ bad :: post,
         strokesCache := some (pre.map (fun st => st.1.zip st.2)) }) := by
  constructor
  · unfold strokes
    rw [extractAll_mismatch pre bad post hpre hbad]
    simp
  · rfl

/-- Witness for `claim9_partial_cache`: a good 2-point stroke followed
by a stroke with two x-values and one y-value. -/
theorem claim9_partial_cache_witness :
    strokes { image_data := [([0, 10], [0, 5]), ([1, 2], [3])],
              strokesCache := none } =
      (none, { image_data := [([0, 10], [0, 5]), ([1, 2], [3])],
               strokesCache := some [[(0, 0), (10, 5)]] }) ∧
    strokes { image_data := [([0, 10], [0, 5]), ([1, 2], [3])],
              strokesCache := some [[(0, 0), (10, 5)]] } =
      (some [[(0, 0), (10, 5)]],
       { image_data := [([0, 10], [0, 5]), ([1, 2], [3])],
         strokesCache := some [[(0, 0), (10, 5)]] }) :=
  claim9_partial_cache [([0, 10], [0, 5])] ([1, 2], [3]) []
    (by decide) (by decide)

/-- Claim C10.  Degenerate declared counts pass end to end: a frame
declaring zero strokes decodes to a record with no strokes, a frame
whose single stroke declares zero points decodes to empty coordinate
arrays extracting to an empty point list, and `get_image` renders both
records to the all-background 255×255 canvas. -/
theorem claim10_degenerate_counts :
    unpack_drawing zeroStrokesBytes = some (zeroStrokesRec, []) ∧
    zeroStrokesRec.image = [] ∧
    unpack_drawing emptyStrokeBytes = some (emptyStrokeRec, []) ∧
    emptyStrokeRec.image = [([], [])] ∧
    strokes { image_data := emptyStrokeRec.image, strokesCache := none } =
      (some [[]], { image_data := emptyStrokeRec.image,
                    strokesCache := some [[]] }) ∧
    get_image { image_data := zeroStrokesRec.image, strokesCache := none }
        (0, 0, 0) 2 (255, 255, 255) =
      (some (allBackground (255, 255, 255)),
       { image_data := zeroStrokesRec.image, strokesCache := some [] }) ∧
    get_image { image_data := emptyStrokeRec.image, strokesCache := none }
        (0, 0, 0) 2 (255, 255, 255) =
      (some (allBackground (255, 255, 255)),
       { image_data := emptyStrokeRec.image, strokesCache := some [[]] }) := by
  refine ⟨by rfl, by rfl, by rfl, by rfl, by rfl, ?_, ?_⟩
  · rw [← render_background [] (by simp) (0, 0, 0) (255, 255, 255) 2]
    rfl
  · rw [← render_background [[]] (by simp) (0, 0, 0) (255, 255, 255) 2]
    rfl

end Process
